import Mathlib

/-!
Verification of the time-entry validation and pay-computation engine of the
carrier-helper repository (src/js/common.js), as a shallow embedding.

Modelling conventions:
* Timestamps are integers: milliseconds of ambient local time (the code does
  all day-boundary arithmetic in the host's local calendar; we model local
  time as a fixed linear clock, so local midnight of day `k` is `k * msPerDay`).
* JavaScript `Number` arithmetic on hours is modelled by exact rationals.
* An absent `clockOut` (`null`) is `Option.none`.
-/

namespace CarrierHelper

/-- One time entry, as stored by the application:
`{id, clockIn, clockOut|null, notes}` with timestamps in local milliseconds. -/
structure Entry where
  id : String
  clockIn : ℤ
  clockOut : Option ℤ
  notes : String
deriving DecidableEq, Repr

/-- Pay-rate configuration (`meta`): the fields destructured by
`calculatePaySummary`, plus the night-differential window.  The `HH:MM`
strings `nightDiffStartTime` / `nightDiffEndTime` are modelled after the
code's `split(":").map(Number)` step as (hour, minute) integer pairs. -/
structure MetaData where
  baseHourlyRate : ℚ
  overtimeMultiplier : ℚ
  penaltyOvertimeMultiplier : ℚ
  nightDifferentialRate : ℚ
  sundayPremiumPercent : ℚ
  dailyOvertimeThresholdHours : ℚ
  dailyPenaltyOTThresholdHours : ℚ
  weeklyOvertimeThresholdHours : ℚ
  weeklyPenaltyOTThresholdHours : ℚ
  nightDiffStartHour : ℤ
  nightDiffStartMinute : ℤ
  nightDiffEndHour : ℤ
  nightDiffEndMinute : ℤ
deriving DecidableEq, Repr

/-- `getDefaultMetaData()` from common.js. -/
def getDefaultMetaData : MetaData where
  baseHourlyRate := 2349 / 100
  overtimeMultiplier := 3 / 2
  penaltyOvertimeMultiplier := 2
  nightDifferentialRate := 108 / 100
  sundayPremiumPercent := 25
  dailyOvertimeThresholdHours := 8
  dailyPenaltyOTThresholdHours := 10
  weeklyOvertimeThresholdHours := 40
  weeklyPenaltyOTThresholdHours := 56
  nightDiffStartHour := 18
  nightDiffStartMinute := 0
  nightDiffEndHour := 6
  nightDiffEndMinute := 0

def msPerHour : ℤ := 3600000

def msPerDay : ℤ := 86400000

/-- Local calendar-day index of a timestamp (`toLocalDateString` groups by this
date; in the linear local-clock model the date is the floor of `t / msPerDay`). -/
def localDay (t : ℤ) : ℤ := t / msPerDay

/-- `getShiftHours(entry)`: 0 when open, otherwise
`(clockOut - clockIn) / 3600000` as an exact fraction of hours. -/
def getShiftHours (e : Entry) : ℚ :=
  match e.clockOut with
  | none => 0
  | some out => ((out - e.clockIn : ℤ) : ℚ) / (msPerHour : ℚ)

/-- Night-window start, in milliseconds past local midnight
(`nightStartH * 60 + nightStartM`, scaled to ms). -/
def nightStartMs (meta : MetaData) : ℤ :=
  (meta.nightDiffStartHour * 60 + meta.nightDiffStartMinute) * 60000

/-- Night-window end, in milliseconds past local midnight. -/
def nightEndMs (meta : MetaData) : ℤ :=
  (meta.nightDiffEndHour * 60 + meta.nightDiffEndMinute) * 60000

/-- `wraps = (nightStartH * 60 + nightStartM) > (nightEndH * 60 + nightEndM)`. -/
def nightWraps (meta : MetaData) : Bool :=
  meta.nightDiffStartHour * 60 + meta.nightDiffStartMinute >
    meta.nightDiffEndHour * 60 + meta.nightDiffEndMinute

/-- `Math.max(0, Math.min(shiftEnd, segEnd) - Math.max(shiftStart, segStart))`:
the clamped overlap (in ms) of the shift `[s, e]` with a segment `[segS, segE]`. -/
def clip (s e segS segE : ℤ) : ℤ := max 0 (min e segE - max s segS)

/-- Night milliseconds contributed by local day `k` of the walk inside
`calculateNightDiffHours`: the wrapping window tests the evening segment
`[k·day + start, (k+1)·day)` and the morning segment `[k·day, k·day + end)`;
a non-wrapping window tests the single segment `[k·day + start, k·day + end)`. -/
def dayNightMs (meta : MetaData) (s e k : ℤ) : ℤ :=
  if nightWraps meta then
    clip s e (k * msPerDay + nightStartMs meta) ((k + 1) * msPerDay) +
      clip s e (k * msPerDay) (k * msPerDay + nightEndMs meta)
  else
    clip s e (k * msPerDay + nightStartMs meta) (k * msPerDay + nightEndMs meta)

/-- The day walk of `calculateNightDiffHours` / `calculateSundayHours`: start at
local midnight of the day containing the shift start and step one day at a time
while the day's midnight is `≤ shiftEnd`; these are the day indices
`localDay s, …, localDay e`. -/
def dayIndices (s e : ℤ) : List ℤ :=
  (List.range (localDay e - localDay s + 1).toNat).map
    (fun (i : ℕ) => localDay s + (i : ℤ))

/-- `calculateNightDiffHours(entry, meta)` from common.js. -/
def calculateNightDiffHours (entry : Entry) (meta : MetaData) : ℚ :=
  match entry.clockOut with
  | none => 0
  | some out =>
      ((((dayIndices entry.clockIn out).map
        (dayNightMs meta entry.clockIn out)).sum : ℤ) : ℚ) / (msPerHour : ℚ)

/-- `day.getDay() === 0` (Sunday) in the linear local-clock model: day index 3
(1970-01-04) was a Sunday, so Sundays are the days `≡ 3 (mod 7)`. -/
def isSunday (k : ℤ) : Bool := Int.emod k 7 = 3

/-- Sunday milliseconds contributed by local day `k` of the walk inside
`calculateSundayHours`: the whole day `[k·day, (k+1)·day)` when `k` is a Sunday. -/
def daySundayMs (s e k : ℤ) : ℤ :=
  if isSunday k then clip s e (k * msPerDay) ((k + 1) * msPerDay) else 0

/-- `calculateSundayHours(entry)` from common.js. -/
def calculateSundayHours (entry : Entry) : ℚ :=
  match entry.clockOut with
  | none => 0
  | some out =>
      ((((dayIndices entry.clockIn out).map
        (daySundayMs entry.clockIn out)).sum : ℤ) : ℚ) / (msPerHour : ℚ)

/-- The pay breakdown returned by `calculatePaySummary`. -/
structure PaySummary where
  totalHours : ℚ
  baseHours : ℚ
  otHours : ℚ
  penaltyOTHours : ℚ
  nightDiffHours : ℚ
  sundayHours : ℚ
  basePay : ℚ
  otPay : ℚ
  penaltyOTPay : ℚ
  nightDiffPay : ℚ
  sundayPremiumPay : ℚ
  estimatedPay : ℚ
deriving DecidableEq, Repr

/-- `entries.filter((e) => e.clockOut)`: the completed entries. -/
def closedEntries (entries : List Entry) : List Entry :=
  entries.filter (fun e => e.clockOut.isSome)

/-- Distinct keys in order of first occurrence — the key set of the JS `Map`
built by pushing each element under its key. -/
def firstKeys : List ℤ → List ℤ
  | [] => []
  | k :: ks => k :: (firstKeys ks).filter (fun x => x ≠ k)

/-- The keys of `dayMap` inside `calculatePaySummary`: the distinct local dates
of the completed entries' `clockIn`, in first-occurrence order. -/
def dayKeys (entries : List Entry) : List ℤ :=
  firstKeys ((closedEntries entries).map (fun e => localDay e.clockIn))

/-- `dayMap.get(day)`: the completed entries whose `clockIn` falls on local
day `k`, in their original order. -/
def entriesOn (entries : List Entry) (k : ℤ) : List Entry :=
  (closedEntries entries).filter (fun e => localDay e.clockIn = k)

/-- `totalDayHours` for one day of `calculatePaySummary`. -/
def dayTotal (entries : List Entry) (k : ℤ) : ℚ :=
  ((entriesOn entries k).map getShiftHours).sum

/-- The `baseHours` accumulator after the per-day loop of `calculatePaySummary`:
`baseHours += Math.min(totalDayHours, dailyOvertimeThresholdHours)` per day. -/
def preBaseHours (entries : List Entry) (meta : MetaData) : ℚ :=
  ((dayKeys entries).map
    (fun k => min (dayTotal entries k) meta.dailyOvertimeThresholdHours)).sum

/-- The `otHours` accumulator after the per-day loop:
`otHours += Math.max(0, Math.min(totalDayHours, dailyPenaltyOTThresholdHours)
- dailyOvertimeThresholdHours)` per day. -/
def preOtHours (entries : List Entry) (meta : MetaData) : ℚ :=
  ((dayKeys entries).map
    (fun k => max 0 (min (dayTotal entries k) meta.dailyPenaltyOTThresholdHours -
      meta.dailyOvertimeThresholdHours))).sum

/-- The `penaltyOTHours` accumulator after the per-day loop:
`penaltyOTHours += Math.max(0, totalDayHours - dailyPenaltyOTThresholdHours)`. -/
def prePenaltyOTHours (entries : List Entry) (meta : MetaData) : ℚ :=
  ((dayKeys entries).map
    (fun k => max 0 (dayTotal entries k - meta.dailyPenaltyOTThresholdHours))).sum

/-- The `nightDiffHours` accumulator: summed per day group, per entry. -/
def nightDiffTotal (entries : List Entry) (meta : MetaData) : ℚ :=
  ((dayKeys entries).map
    (fun k => ((entriesOn entries k).map
      (fun e => calculateNightDiffHours e meta)).sum)).sum

/-- The `sundayHours` accumulator: summed per day group, per entry. -/
def sundayTotal (entries : List Entry) : ℚ :=
  ((dayKeys entries).map
    (fun k => ((entriesOn entries k).map calculateSundayHours).sum)).sum

/-- `calculatePaySummary(entries, meta)` from common.js: daily accumulation,
then the weekly overtime spillover, then the weekly penalty-OT spillover,
then the pay lines. -/
def calculatePaySummary (entries : List Entry) (meta : MetaData) : PaySummary :=
  let b0 := preBaseHours entries meta
  let o0 := preOtHours entries meta
  let p0 := prePenaltyOTHours entries meta
  let nightDiffHours := nightDiffTotal entries meta
  let sundayHours := sundayTotal entries
  -- weekly OT adjustment: move excess base hours to OT
  let baseHours := if b0 > meta.weeklyOvertimeThresholdHours then
    meta.weeklyOvertimeThresholdHours else b0
  let ot1 := if b0 > meta.weeklyOvertimeThresholdHours then
    o0 + (b0 - meta.weeklyOvertimeThresholdHours) else o0
  -- weekly penalty OT adjustment: move excess OT hours to penalty OT
  let otHours := if baseHours + ot1 > meta.weeklyPenaltyOTThresholdHours then
    ot1 - (baseHours + ot1 - meta.weeklyPenaltyOTThresholdHours) else ot1
  let penaltyOTHours := if baseHours + ot1 > meta.weeklyPenaltyOTThresholdHours then
    p0 + (baseHours + ot1 - meta.weeklyPenaltyOTThresholdHours) else p0
  let totalHours := baseHours + otHours + penaltyOTHours
  let basePay := baseHours * meta.baseHourlyRate
  let otPay := otHours * meta.baseHourlyRate * meta.overtimeMultiplier
  let penaltyOTPay := penaltyOTHours * meta.baseHourlyRate * meta.penaltyOvertimeMultiplier
  let nightDiffPay := nightDiffHours * meta.nightDifferentialRate
  let sundayPremiumPay := sundayHours * meta.baseHourlyRate * (meta.sundayPremiumPercent / 100)
  { totalHours := totalHours
    baseHours := baseHours
    otHours := otHours
    penaltyOTHours := penaltyOTHours
    nightDiffHours := nightDiffHours
    sundayHours := sundayHours
    basePay := basePay
    otPay := otPay
    penaltyOTPay := penaltyOTPay
    nightDiffPay := nightDiffPay
    sundayPremiumPay := sundayPremiumPay
    estimatedPay := basePay + otPay + penaltyOTPay + nightDiffPay + sundayPremiumPay }

/-- The overlap test of `validateNoOverlap` for one `other` entry:
`entryStartsBeforeOtherEnds && otherStartsBeforeEntryEnds`, a `null` end
counting as unbounded. -/
def overlapCond (entry other : Entry) : Bool :=
  (match other.clockOut with
   | none => true
   | some otherEnd => decide (entry.clockIn < otherEnd)) &&
  (match entry.clockOut with
   | none => true
   | some entryEnd => decide (other.clockIn < entryEnd))

/-- `validateNoOverlap(entry, allEntries)` from common.js: exclude `entry` by
id, return `false` as soon as some remaining entry overlaps. -/
def validateNoOverlap (entry : Entry) (allEntries : List Entry) : Bool :=
  (allEntries.filter (fun e => e.id ≠ entry.id)).all
    (fun other => !(overlapCond entry other))

/-- `validateSingleOpenEntry(entry, allEntries)` from common.js: a completed
entry passes; an open one fails when any other entry clocks in later. -/
def validateSingleOpenEntry (entry : Entry) (allEntries : List Entry) : Bool :=
  match entry.clockOut with
  | some _ => true
  | none =>
    (allEntries.filter (fun e => e.id ≠ entry.id)).all
      (fun other => !(decide (other.clockIn > entry.clockIn)))

/-- The end of an entry's interval, with a missing `clockOut` read as `+∞`
(the spec's description of the overlap rule). -/
def entryEndTime (e : Entry) : WithTop ℤ :=
  match e.clockOut with
  | none => ⊤
  | some t => (t : WithTop ℤ)

/-- The spec's overlap relation: `entryStart < otherEnd AND otherStart <
entryEnd` over `ℤ ∪ {+∞}`. -/
def overlapsSpec (a b : Entry) : Prop :=
  (a.clockIn : WithTop ℤ) < entryEndTime b ∧ (b.clockIn : WithTop ℤ) < entryEndTime a

/-- `mergeEntries`' JS `Map.set`: overwrite in place on an existing id,
otherwise append (JS maps preserve first-insertion order of keys). -/
def mapSet (m : List Entry) (e : Entry) : List Entry :=
  if m.any (fun x => x.id = e.id) then
    m.map (fun x => if x.id = e.id then e else x)
  else m ++ [e]

/-- `mergeEntries(existing, incoming)` from common.js: insert `existing` then
`incoming` into an id-keyed map, then sort the values by `clockIn` (JS
`Array.prototype.sort` is stable, as is `mergeSort`). -/
def mergeEntries (existing incoming : List Entry) : List Entry :=
  ((existing ++ incoming).foldl mapSet []).mergeSort
    (fun a b => a.clockIn ≤ b.clockIn)

/-- Six 7-hour days (08:00–15:00 on local days 0 through 5): the weekly
spillover example of the spec. -/
def sixSevenHourDays : List Entry :=
  [⟨"w0", 28800000, some 54000000, ""⟩,
   ⟨"w1", 115200000, some 140400000, ""⟩,
   ⟨"w2", 201600000, some 226800000, ""⟩,
   ⟨"w3", 288000000, some 313200000, ""⟩,
   ⟨"w4", 374400000, some 399600000, ""⟩,
   ⟨"w5", 460800000, some 486000000, ""⟩]

/-- The all-zero pay summary. -/
def zeroSummary : PaySummary :=
  ⟨0, 0, 0, 0, 0, 0, 0, 0, 0, 0, 0, 0⟩

-- ── Helper lemmas ───────────────────────────────────────────────────────────

lemma firstKeys_mem (l : List ℤ) (x : ℤ) : x ∈ firstKeys l ↔ x ∈ l := by
  induction l with
  | nil => simp [firstKeys]
  | cons k ks ih =>
    by_cases hx : x = k
    · simp [firstKeys, hx]
    · simp [firstKeys, List.mem_filter, hx, ih]

lemma firstKeys_nodup (l : List ℤ) : (firstKeys l).Nodup := by
  induction l with
  | nil => simp [firstKeys]
  | cons k ks ih =>
    refine List.Nodup.cons ?_ (List.Nodup.filter _ ih)
    simp [List.mem_filter]

lemma sum_map_add {α : Type} (f g : α → ℚ) (l : List α) :
    (l.map (fun x => f x + g x)).sum = (l.map f).sum + (l.map g).sum := by
  induction l with
  | nil => simp
  | cons a l ih =>
    simp only [List.map_cons, List.sum_cons, ih]
    ring

lemma sum_map_filter_add (f : Entry → ℚ) (p : Entry → Bool) (l : List Entry) :
    ((l.filter p).map f).sum + ((l.filter (fun e => !(p e))).map f).sum =
      (l.map f).sum := by
  induction l with
  | nil => simp
  | cons a l ih =>
    by_cases h : p a <;> simp [List.filter_cons, h] <;> linarith

lemma sum_over_keys (f : Entry → ℚ) (g : Entry → ℤ) :
    ∀ (keys : List ℤ) (l : List Entry), keys.Nodup → (∀ e ∈ l, g e ∈ keys) →
      (keys.map (fun k => ((l.filter (fun e => g e = k)).map f).sum)).sum =
        (l.map f).sum := by
  intro keys
  induction keys with
  | nil =>
    intro l _ hcov
    have hnil : l = [] := by
      cases l with
      | nil => rfl
      | cons a l => exact absurd (hcov a (by simp)) (by simp)
    simp [hnil]
  | cons k ks ih =>
    intro l hnd hcov
    have hkx : k ∉ ks := (List.nodup_cons.mp hnd).1
    have hnd' : ks.Nodup := (List.nodup_cons.mp hnd).2
    have hstep : ∀ j ∈ ks, l.filter (fun e => g e = j) =
        (l.filter (fun e => !(decide (g e = k)))).filter (fun e => g e = j) := by
      intro j hj
      have hjk : j ≠ k := fun h => hkx (h ▸ hj)
      rw [List.filter_filter]
      apply List.filter_congr
      intro e _
      by_cases hgj : g e = j
      · have hgk : g e ≠ k := by rw [hgj]; exact hjk
        simp [hgj, hgk, hjk]
      · simp [hgj]
    have hmap : ks.map (fun j => ((l.filter (fun e => g e = j)).map f).sum) =
        ks.map (fun j =>
          (((l.filter (fun e => !(decide (g e = k)))).filter
            (fun e => g e = j)).map f).sum) :=
      List.map_congr_left (fun j hj => by rw [hstep j hj])
    have hcov' : ∀ e ∈ l.filter (fun e => !(decide (g e = k))), g e ∈ ks := by
      intro e he
      rw [List.mem_filter] at he
      have h1 := hcov e he.1
      have h2 : g e ≠ k := by simpa using he.2
      simpa [h2] using h1
    simp only [List.map_cons, List.sum_cons, hmap, ih _ hnd' hcov']
    exact sum_map_filter_add f (fun e => decide (g e = k)) l

lemma dayKeys_cover (entries : List Entry) :
    ∀ e ∈ closedEntries entries, localDay e.clockIn ∈ dayKeys entries := by
  intro e he
  rw [dayKeys, firstKeys_mem]
  exact List.mem_map_of_mem _ he

lemma sum_dayTotal (entries : List Entry) :
    ((dayKeys entries).map (fun k => dayTotal entries k)).sum =
      ((closedEntries entries).map getShiftHours).sum := by
  have h := sum_over_keys getShiftHours (fun e => localDay e.clockIn)
    (dayKeys entries) (closedEntries entries) (firstKeys_nodup _)
    (dayKeys_cover entries)
  exact h

lemma dayKeys_toFinset (entries : List Entry) :
    (dayKeys entries).toFinset =
      ((closedEntries entries).map (fun e => localDay e.clockIn)).toFinset := by
  ext x
  simp [dayKeys, firstKeys_mem]

lemma dayKeys_sum_eq_finset (f : ℤ → ℚ) (entries : List Entry) :
    ((dayKeys entries).map f).sum =
      ∑ k ∈ ((closedEntries entries).map (fun e => localDay e.clockIn)).toFinset,
        f k := by
  rw [← dayKeys_toFinset]
  exact (List.sum_toFinset f (firstKeys_nodup _)).symm

lemma tier_split (d t1 t2 : ℚ) (h12 : t1 ≤ t2) :
    min d t1 + max 0 (min d t2 - t1) + max 0 (d - t2) = d := by
  rcases le_total d t1 with h | h <;> rcases le_total d t2 with h2 | h2 <;>
    simp [min_def, max_def] <;> split_ifs <;> linarith

lemma totalHours_pre (entries : List Entry) (meta : MetaData) :
    (calculatePaySummary entries meta).totalHours =
      preBaseHours entries meta + preOtHours entries meta +
        prePenaltyOTHours entries meta := by
  simp only [calculatePaySummary]
  split_ifs <;> ring

lemma closedEntries_filter (entries : List Entry) :
    closedEntries (entries.filter (fun e => e.clockOut.isSome)) =
      closedEntries entries := by
  simp [closedEntries, List.filter_filter]

lemma paySummary_closed_congr (l1 l2 : List Entry) (meta : MetaData)
    (h : closedEntries l1 = closedEntries l2) :
    calculatePaySummary l1 meta = calculatePaySummary l2 meta := by
  unfold calculatePaySummary preBaseHours preOtHours prePenaltyOTHours
    nightDiffTotal sundayTotal dayTotal entriesOn dayKeys
  rw [h]

lemma calcNight_eval (meta : MetaData) (s out N : ℤ) (i n : String)
    (h : ((dayIndices s out).map (dayNightMs meta s out)).sum = N) :
    calculateNightDiffHours ⟨i, s, some out, n⟩ meta = (N : ℚ) / (msPerHour : ℚ) := by
  simp only [calculateNightDiffHours, h]

lemma overlapCond_iff (a b : Entry) :
    overlapCond a b = true ↔ overlapsSpec a b := by
  unfold overlapCond overlapsSpec entryEndTime
  cases ha : a.clockOut <;> cases hb : b.clockOut <;>
    simp [WithTop.coe_lt_top, WithTop.coe_lt_coe]

lemma validateNoOverlap_eq_false_iff (entry : Entry) (l : List Entry) :
    validateNoOverlap entry l = false ↔
      ∃ other ∈ l, other.id ≠ entry.id ∧ overlapsSpec entry other := by
  simp only [validateNoOverlap]
  rw [List.all_eq_false]
  constructor
  · rintro ⟨x, hx, hcond⟩
    rw [List.mem_filter] at hx
    refine ⟨x, hx.1, by simpa using hx.2, ?_⟩
    rw [← overlapCond_iff]
    simpa using hcond
  · rintro ⟨x, hx, hid, hov⟩
    refine ⟨x, List.mem_filter.mpr ⟨hx, by simpa using hid⟩, ?_⟩
    simpa using (overlapCond_iff entry x).mpr hov

lemma validateSingleOpen_eq_false_iff (entry : Entry) (l : List Entry)
    (hopen : entry.clockOut = none) :
    validateSingleOpenEntry entry l = false ↔
      ∃ other ∈ l, other.id ≠ entry.id ∧ entry.clockIn < other.clockIn := by
  simp only [validateSingleOpenEntry, hopen]
  rw [List.all_eq_false]
  constructor
  · rintro ⟨x, hx, hcond⟩
    rw [List.mem_filter] at hx
    exact ⟨x, hx.1, by simpa using hx.2, by simpa using hcond⟩
  · rintro ⟨x, hx, hid, hlt⟩
    exact ⟨x, List.mem_filter.mpr ⟨hx, by simpa using hid⟩, by simpa using hlt⟩

-- ── Claim theorems ──────────────────────────────────────────────────────────

/-- C3: `calculateNightDiffHours` intersects a shift with the nightly window
correctly across day boundaries: for the wrapping default window 18:00–06:00,
an 18:00→06:00 (next day) shift yields exactly 12 night hours and a
17:00–19:00 shift yields exactly 1; for the non-wrapping window 02:00–10:00,
a 00:00–12:00 shift yields exactly 8. -/
theorem c3_night_window_examples :
    calculateNightDiffHours ⟨"n1", 64800000, some 108000000, ""⟩
      getDefaultMetaData = 12 ∧
    calculateNightDiffHours ⟨"n2", 61200000, some 68400000, ""⟩
      getDefaultMetaData = 1 ∧
    calculateNightDiffHours ⟨"n3", 0, some 43200000, ""⟩
      { getDefaultMetaData with nightDiffStartHour := 2, nightDiffEndHour := 10 } = 8 := by
  refine ⟨?_, ?_, ?_⟩
  · exact (calcNight_eval getDefaultMetaData 64800000 108000000 43200000 "n1" ""
      (by decide)).trans (by norm_num [msPerHour])
  · exact (calcNight_eval getDefaultMetaData 61200000 68400000 3600000 "n2" ""
      (by decide)).trans (by norm_num [msPerHour])
  · exact (calcNight_eval
      { getDefaultMetaData with nightDiffStartHour := 2, nightDiffEndHour := 10 }
      0 43200000 28800000 "n3" "" (by decide)).trans (by norm_num [msPerHour])

/-- C7 counterexample: a zero-duration closed entry (clockOut equal to
clockIn, both present) has `getShiftHours = 0` even though `clockOut` is not
absent, so "hours = 0 iff clockOut absent" fails as stated over all entries. -/
theorem c7_counterexample :
    ¬ (getShiftHours ⟨"z", 0, some 0, ""⟩ = 0 ↔
        Entry.clockOut ⟨"z", 0, some 0, ""⟩ = none) := by
  intro h
  have h0 : getShiftHours (⟨"z", 0, some 0, ""⟩ : Entry) = 0 := by
    norm_num [getShiftHours, msPerHour]
  simpa using h.mp h0

/-- C7 (amended): for entries satisfying the data-model invariant that a
present `clockOut` is strictly after `clockIn`, `getShiftHours` is zero iff
the entry is open, and a closed entry's hours are the exact (unrounded)
fraction `(clockOut - clockIn) / 3600000`. -/
theorem c7_hours_zero_iff (e : Entry)
    (hval : ∀ t, e.clockOut = some t → e.clockIn < t) :
    (getShiftHours e = 0 ↔ e.clockOut = none) ∧
    ∀ t, e.clockOut = some t →
      getShiftHours e = ((t - e.clockIn : ℤ) : ℚ) / (msPerHour : ℚ) := by
  cases hout : e.clockOut with
  | none =>
      refine ⟨by simp [getShiftHours, hout], ?_⟩
      intro t ht
      exact Option.noConfusion ht
  | some t =>
      have hlt := hval t hout
      have hpos : (0 : ℚ) < ((t - e.clockIn : ℤ) : ℚ) := by
        exact_mod_cast sub_pos.mpr hlt
      have hne : ((t - e.clockIn : ℤ) : ℚ) / (msPerHour : ℚ) ≠ 0 := by
        apply div_ne_zero (ne_of_gt hpos)
        norm_num [msPerHour]
      constructor
      · simp only [getShiftHours, hout]
        constructor
        · intro h0
          exact absurd h0 hne
        · intro h0
          cases h0
      · intro t' ht'
        have hts : t = t' := Option.some.inj ht'
        subst hts
        simp only [getShiftHours, hout]

/-- C7 witness: the amended theorem applied to a concrete valid 1-hour entry. -/
theorem c7_witness :
    (getShiftHours ⟨"w", 0, some 3600000, ""⟩ = 0 ↔
      Entry.clockOut ⟨"w", 0, some 3600000, ""⟩ = none) :=
  (c7_hours_zero_iff ⟨"w", 0, some 3600000, ""⟩
    (by intro t ht; simp only [Option.some.injEq] at ht; show (0 : ℤ) < t; omega)).1

/-- C4: `validateNoOverlap` returns `false` exactly when some other entry (a
different id) satisfies the strict interval-overlap condition with missing
ends read as `+∞`; entries that merely touch at a boundary pass for both,
and two distinct open entries always fail. -/
theorem c4_hasNoOverlap_spec :
    (∀ entry allEntries, validateNoOverlap entry allEntries = false ↔
      ∃ other ∈ allEntries, other.id ≠ entry.id ∧ overlapsSpec entry other) ∧
    (∀ a b, a.id ≠ b.id → a.clockOut = some b.clockIn →
      validateNoOverlap a [a, b] = true ∧ validateNoOverlap b [a, b] = true) ∧
    (∀ entry other allEntries, other ∈ allEntries → other.id ≠ entry.id →
      entry.clockOut = none → other.clockOut = none →
      validateNoOverlap entry allEntries = false) := by
  refine ⟨validateNoOverlap_eq_false_iff, ?_, ?_⟩
  · intro a b hid htouch
    have hba : b.id ≠ a.id := Ne.symm hid
    constructor
    · simp [validateNoOverlap, List.filter, hba, overlapCond, htouch]
    · simp [validateNoOverlap, List.filter, hba.symm, overlapCond, htouch]
  · intro entry other allEntries hmem hid h1 h2
    rw [validateNoOverlap_eq_false_iff]
    exact ⟨other, hmem, hid, by simp [overlapsSpec, entryEndTime, h1, h2]⟩

/-- C4 witness: touching entries (one ends at 10, the next starts at 10) pass
for both, and two distinct open entries fail. -/
theorem c4_witness :
    (validateNoOverlap ⟨"a", 0, some 10, ""⟩
        [⟨"a", 0, some 10, ""⟩, ⟨"b", 10, some 20, ""⟩] = true ∧
      validateNoOverlap ⟨"b", 10, some 20, ""⟩
        [⟨"a", 0, some 10, ""⟩, ⟨"b", 10, some 20, ""⟩] = true) ∧
    validateNoOverlap ⟨"c", 0, none, ""⟩
      [⟨"c", 0, none, ""⟩, ⟨"d", 5, none, ""⟩] = false := by
  constructor
  · exact c4_hasNoOverlap_spec.2.1 ⟨"a", 0, some 10, ""⟩ ⟨"b", 10, some 20, ""⟩
      (by decide) rfl
  · exact c4_hasNoOverlap_spec.2.2 ⟨"c", 0, none, ""⟩ ⟨"d", 5, none, ""⟩ _
      (by simp) (by decide) rfl rfl

/-- C5: `validateSingleOpenEntry` is `true` whenever the entry is closed; for
an open entry it is `false` exactly when some other entry (different id) has a
strictly later `clockIn`; in particular the earlier of two distinct open
entries always fails. -/
theorem c5_singleOpen_spec :
    (∀ entry allEntries t, entry.clockOut = some t →
      validateSingleOpenEntry entry allEntries = true) ∧
    (∀ entry allEntries, entry.clockOut = none →
      (validateSingleOpenEntry entry allEntries = false ↔
        ∃ other ∈ allEntries, other.id ≠ entry.id ∧ entry.clockIn < other.clockIn)) ∧
    (∀ entry other allEntries, entry.clockOut = none → other.clockOut = none →
      other ∈ allEntries → other.id ≠ entry.id → entry.clockIn < other.clockIn →
      validateSingleOpenEntry entry allEntries = false) := by
  refine ⟨?_, ?_, ?_⟩
  · intro entry allEntries t ht
    simp [validateSingleOpenEntry, ht]
  · intro entry allEntries hopen
    exact validateSingleOpen_eq_false_iff entry allEntries hopen
  · intro entry other allEntries h1 _ hmem hid hlt
    rw [validateSingleOpen_eq_false_iff entry allEntries h1]
    exact ⟨other, hmem, hid, hlt⟩

/-- C5 witness: of two open entries, checking the earlier one returns false,
and a closed entry always passes. -/
theorem c5_witness :
    validateSingleOpenEntry ⟨"a", 0, none, ""⟩
      [⟨"a", 0, none, ""⟩, ⟨"b", 5, none, ""⟩] = false ∧
    validateSingleOpenEntry ⟨"c", 0, some 7, ""⟩
      [⟨"c", 0, some 7, ""⟩, ⟨"d", 9, none, ""⟩] = true := by
  constructor
  · exact c5_singleOpen_spec.2.2 ⟨"a", 0, none, ""⟩ ⟨"b", 5, none, ""⟩ _
      rfl rfl (by simp) (by decide) (by decide)
  · exact c5_singleOpen_spec.1 ⟨"c", 0, some 7, ""⟩ _ 7 rfl

lemma mapSet_ids_of_hit (m : List Entry) (e : Entry)
    (h : m.any (fun x => x.id = e.id)) :
    (mapSet m e).map (fun x => x.id) = m.map (fun x => x.id) := by
  rw [mapSet, if_pos h, List.map_map]
  apply List.map_congr_left
  intro x _
  by_cases hxe : x.id = e.id <;> simp [hxe]

lemma mapSet_ids_of_miss (m : List Entry) (e : Entry)
    (h : ¬ m.any (fun x => x.id = e.id)) :
    (mapSet m e).map (fun x => x.id) = m.map (fun x => x.id) ++ [e.id] := by
  rw [mapSet, if_neg h]
  simp

lemma mem_mapSet_ids (m : List Entry) (e : Entry) (k : String) :
    k ∈ (mapSet m e).map (fun x => x.id) ↔
      k ∈ m.map (fun x => x.id) ∨ k = e.id := by
  by_cases h : m.any (fun x => x.id = e.id)
  · rw [mapSet_ids_of_hit m e h]
    rw [List.any_eq_true] at h
    obtain ⟨x, hx, hxe⟩ := h
    rw [decide_eq_true_eq] at hxe
    constructor
    · exact Or.inl
    · rintro (hk | rfl)
      · exact hk
      · exact hxe ▸ List.mem_map_of_mem _ hx
  · rw [mapSet_ids_of_miss m e h]
    simp

lemma fold_ids_mem :
    ∀ (l m : List Entry) (k : String),
      k ∈ (l.foldl mapSet m).map (fun x => x.id) ↔
        k ∈ m.map (fun x => x.id) ∨ k ∈ l.map (fun x => x.id) := by
  intro l
  induction l with
  | nil => simp
  | cons e l ih =>
    intro m k
    rw [List.foldl_cons, ih (mapSet m e) k, mem_mapSet_ids]
    simp [or_assoc]

lemma fold_ids_nodup :
    ∀ (l m : List Entry), (m.map (fun x => x.id)).Nodup →
      ((l.foldl mapSet m).map (fun x => x.id)).Nodup := by
  intro l
  induction l with
  | nil => exact fun m h => h
  | cons e l ih =>
    intro m hm
    rw [List.foldl_cons]
    apply ih
    by_cases h : m.any (fun x => x.id = e.id)
    · rw [mapSet_ids_of_hit m e h]
      exact hm
    · rw [mapSet_ids_of_miss m e h]
      rw [List.nodup_append]
      refine ⟨hm, List.nodup_singleton _, ?_⟩
      intro k hk
      simp only [List.mem_singleton]
      intro hke
      subst hke
      rw [List.mem_map] at hk
      obtain ⟨x, hx, hxe⟩ := hk
      exact h (List.any_eq_true.mpr ⟨x, hx, decide_eq_true hxe⟩)

lemma mem_fold_of_untouched :
    ∀ (l m : List Entry) (e : Entry), e ∈ m → (∀ x ∈ l, x.id ≠ e.id) →
      e ∈ l.foldl mapSet m := by
  intro l
  induction l with
  | nil => exact fun m e he _ => he
  | cons a l ih =>
    intro m e he hne
    rw [List.foldl_cons]
    refine ih _ e ?_ (fun x hx => hne x (List.mem_cons_of_mem a hx))
    have hae : a.id ≠ e.id := hne a (List.mem_cons_self a l)
    rw [mapSet]
    split_ifs with h
    · refine List.mem_map.mpr ⟨e, he, ?_⟩
      have : e.id ≠ a.id := fun hc => hae hc.symm
      simp [this]
    · exact List.mem_append_left _ he

lemma mem_mapSet_self (m : List Entry) (e : Entry) : e ∈ mapSet m e := by
  rw [mapSet]
  split_ifs with h
  · rw [List.any_eq_true] at h
    obtain ⟨x, hx, hxe⟩ := h
    rw [decide_eq_true_eq] at hxe
    exact List.mem_map.mpr ⟨x, hx, by simp [hxe]⟩
  · exact List.mem_append_right _ (List.mem_singleton.mpr rfl)

lemma mem_fold_of_last (l1 l2 m : List Entry) (e : Entry)
    (h : ∀ x ∈ l2, x.id ≠ e.id) :
    e ∈ (l1 ++ e :: l2).foldl mapSet m := by
  rw [List.foldl_append, List.foldl_cons]
  exact mem_fold_of_untouched l2 _ e (mem_mapSet_self _ e) h

lemma mergeEntries_perm_fold (existing incoming : List Entry) :
    List.Perm (mergeEntries existing incoming)
      ((existing ++ incoming).foldl mapSet []) :=
  List.mergeSort_perm _ _

/-- C1: the per-day accumulation of `calculatePaySummary` restricts to
completed entries grouped by local date of `clockIn` and adds, per day with
total `dayTotal`: `min(dayTotal, T1)` to base, `max(0, min(dayTotal, T2) -
T1)` to overtime and `max(0, dayTotal - T2)` to penalty overtime; under the
default 8/10/40/56 thresholds a single 9-hour day gives `8/1/0` and a single
11-hour day gives `8/2/1`. -/
theorem c1_daily_accumulation :
    (∀ entries meta,
      preBaseHours entries meta =
        ∑ k ∈ ((closedEntries entries).map (fun e => localDay e.clockIn)).toFinset,
          min (dayTotal entries k) meta.dailyOvertimeThresholdHours ∧
      preOtHours entries meta =
        ∑ k ∈ ((closedEntries entries).map (fun e => localDay e.clockIn)).toFinset,
          max 0 (min (dayTotal entries k) meta.dailyPenaltyOTThresholdHours -
            meta.dailyOvertimeThresholdHours) ∧
      prePenaltyOTHours entries meta =
        ∑ k ∈ ((closedEntries entries).map (fun e => localDay e.clockIn)).toFinset,
          max 0 (dayTotal entries k - meta.dailyPenaltyOTThresholdHours)) ∧
    ((calculatePaySummary [⟨"d1", 28800000, some 61200000, ""⟩]
        getDefaultMetaData).baseHours = 8 ∧
      (calculatePaySummary [⟨"d1", 28800000, some 61200000, ""⟩]
        getDefaultMetaData).otHours = 1 ∧
      (calculatePaySummary [⟨"d1", 28800000, some 61200000, ""⟩]
        getDefaultMetaData).penaltyOTHours = 0) ∧
    ((calculatePaySummary [⟨"d2", 28800000, some 68400000, ""⟩]
        getDefaultMetaData).baseHours = 8 ∧
      (calculatePaySummary [⟨"d2", 28800000, some 68400000, ""⟩]
        getDefaultMetaData).otHours = 2 ∧
      (calculatePaySummary [⟨"d2", 28800000, some 68400000, ""⟩]
        getDefaultMetaData).penaltyOTHours = 1) := by
  refine ⟨fun entries meta => ⟨?_, ?_, ?_⟩, ⟨?_, ?_, ?_⟩, ⟨?_, ?_, ?_⟩⟩
  · rw [preBaseHours, dayKeys_sum_eq_finset]
  · rw [preOtHours, dayKeys_sum_eq_finset]
  · rw [prePenaltyOTHours, dayKeys_sum_eq_finset]
  all_goals
    norm_num [calculatePaySummary, preBaseHours, preOtHours, prePenaltyOTHours,
      dayKeys, entriesOn, dayTotal, closedEntries, firstKeys, getShiftHours,
      localDay, msPerDay, msPerHour, getDefaultMetaData]

/-- C2: after the per-day accumulation the weekly overtime spillover runs
first and the weekly penalty-OT spillover second (expressed in closed form
over the accumulated values); six 7-hour days under the default configuration
yield `baseHours = 40` and `otHours = 2`. -/
theorem c2_weekly_spillover :
    (∀ entries meta,
      (calculatePaySummary entries meta).baseHours =
        min (preBaseHours entries meta) meta.weeklyOvertimeThresholdHours ∧
      (calculatePaySummary entries meta).otHours =
        preOtHours entries meta +
          max 0 (preBaseHours entries meta - meta.weeklyOvertimeThresholdHours) -
          max 0 (min (preBaseHours entries meta) meta.weeklyOvertimeThresholdHours +
            (preOtHours entries meta +
              max 0 (preBaseHours entries meta - meta.weeklyOvertimeThresholdHours)) -
            meta.weeklyPenaltyOTThresholdHours) ∧
      (calculatePaySummary entries meta).penaltyOTHours =
        prePenaltyOTHours entries meta +
          max 0 (min (preBaseHours entries meta) meta.weeklyOvertimeThresholdHours +
            (preOtHours entries meta +
              max 0 (preBaseHours entries meta - meta.weeklyOvertimeThresholdHours)) -
            meta.weeklyPenaltyOTThresholdHours)) ∧
    (calculatePaySummary sixSevenHourDays getDefaultMetaData).baseHours = 40 ∧
    (calculatePaySummary sixSevenHourDays getDefaultMetaData).otHours = 2 := by
  refine ⟨fun entries meta => ?_, ?_, ?_⟩
  · simp only [calculatePaySummary]
    refine ⟨?_, ?_, ?_⟩ <;>
      (split_ifs <;> simp only [min_def, max_def] <;> split_ifs <;> linarith)
  all_goals
    norm_num [calculatePaySummary, preBaseHours, preOtHours, prePenaltyOTHours,
      sixSevenHourDays, dayKeys, entriesOn, dayTotal, closedEntries, firstKeys,
      getShiftHours, localDay, msPerDay, msPerHour, getDefaultMetaData]

/-- C9 counterexample: with a negative weekly overtime threshold (a value the
data model does not forbid), the weekly spillover runs even on an empty
collection and `summarize([], config)` has `baseHours = -1 ≠ 0`, so the
all-zero claim fails for that configuration. -/
theorem c9_counterexample :
    (calculatePaySummary []
      { getDefaultMetaData with weeklyOvertimeThresholdHours := -1 }).baseHours ≠ 0 := by
  norm_num [calculatePaySummary, preBaseHours, preOtHours, prePenaltyOTHours,
    nightDiffTotal, sundayTotal, dayKeys, closedEntries, firstKeys,
    getDefaultMetaData]

/-- C9 (amended): for configurations whose weekly thresholds are nonnegative,
`summarize([], config)` is the all-zero summary; unconditionally,
`summarize` ignores open entries (it equals itself on the closed-entry
filter), so an all-open collection also yields the all-zero summary. -/
theorem c9_degenerate_inputs (meta : MetaData)
    (h1 : 0 ≤ meta.weeklyOvertimeThresholdHours)
    (h2 : 0 ≤ meta.weeklyPenaltyOTThresholdHours) :
    calculatePaySummary [] meta = zeroSummary ∧
    (∀ entries, calculatePaySummary entries meta =
      calculatePaySummary (entries.filter (fun e => e.clockOut.isSome)) meta) ∧
    (∀ entries, (∀ e ∈ entries, e.clockOut = none) →
      calculatePaySummary entries meta = zeroSummary) := by
  have hW1 : ¬ (meta.weeklyOvertimeThresholdHours < 0) := not_lt.mpr h1
  have hW2 : ¬ (meta.weeklyPenaltyOTThresholdHours < 0) := not_lt.mpr h2
  have hempty : calculatePaySummary [] meta = zeroSummary := by
    simp [calculatePaySummary, preBaseHours, preOtHours, prePenaltyOTHours,
      nightDiffTotal, sundayTotal, dayKeys, closedEntries, firstKeys,
      zeroSummary, hW1, hW2]
  refine ⟨hempty, ?_, ?_⟩
  · intro entries
    exact paySummary_closed_congr _ _ meta (closedEntries_filter entries).symm
  · intro entries hopen
    have hclosed : closedEntries entries = [] := by
      rw [closedEntries, List.filter_eq_nil_iff]
      intro e he
      simp [hopen e he]
    rw [paySummary_closed_congr entries [] meta (by rw [hclosed]; rfl)]
    exact hempty

/-- C9 witness: the amended theorem applied to the default configuration. -/
theorem c9_witness :
    calculatePaySummary [] getDefaultMetaData = zeroSummary :=
  (c9_degenerate_inputs getDefaultMetaData
    (by norm_num [getDefaultMetaData]) (by norm_num [getDefaultMetaData])).1

/-- C10: hours are conserved through the tier arithmetic: whenever every
closed entry clocks out at or after it clocks in and the daily thresholds
satisfy `0 ≤ T1 ≤ T2`, the `totalHours` of the summary equals the plain sum
of `getShiftHours` over the completed entries. -/
theorem c10_hours_conserved (entries : List Entry) (meta : MetaData)
    (_hordered : ∀ e ∈ entries, ∀ t, e.clockOut = some t → e.clockIn ≤ t)
    (_h0 : 0 ≤ meta.dailyOvertimeThresholdHours)
    (h12 : meta.dailyOvertimeThresholdHours ≤ meta.dailyPenaltyOTThresholdHours) :
    (calculatePaySummary entries meta).totalHours =
      ((closedEntries entries).map getShiftHours).sum := by
  rw [totalHours_pre, preBaseHours, preOtHours, prePenaltyOTHours,
    ← sum_map_add, ← sum_map_add]
  rw [List.map_congr_left (fun k _ => tier_split (dayTotal entries k)
    meta.dailyOvertimeThresholdHours meta.dailyPenaltyOTThresholdHours h12)]
  exact sum_dayTotal entries

/-- C10 witness: conservation at a concrete 9-hour single-day collection with
the default thresholds. -/
theorem c10_witness :
    (calculatePaySummary [⟨"x", 28800000, some 61200000, ""⟩]
      getDefaultMetaData).totalHours =
      ((closedEntries [⟨"x", 28800000, some 61200000, ""⟩]).map getShiftHours).sum := by
  refine c10_hours_conserved _ _ ?_ ?_ ?_
  · intro e he t ht
    rw [List.mem_singleton] at he
    subst he
    simp only [Option.some.injEq] at ht
    show (28800000 : ℤ) ≤ t
    omega
  · norm_num [getDefaultMetaData]
  · norm_num [getDefaultMetaData]

/-- C6: `mergeEntries` returns one record per distinct id drawn from the
union of the two collections — its id list is duplicate-free and its id set
is the union — the incoming version is kept on a shared id (and a base record
survives exactly when its id is not overwritten), and the result is sorted
ascending by `clockIn`. -/
theorem c6_merge_spec :
    (∀ base incoming, (mergeEntries base incoming).Pairwise
      (fun a b => a.clockIn ≤ b.clockIn)) ∧
    (∀ base incoming,
      ((mergeEntries base incoming).map (fun x => x.id)).Nodup) ∧
    (∀ base incoming k,
      k ∈ (mergeEntries base incoming).map (fun x => x.id) ↔
        k ∈ base.map (fun x => x.id) ∨ k ∈ incoming.map (fun x => x.id)) ∧
    (∀ base incoming e, (incoming.map (fun x => x.id)).Nodup → e ∈ incoming →
      e ∈ mergeEntries base incoming) ∧
    (∀ base incoming e, (base.map (fun x => x.id)).Nodup → e ∈ base →
      e.id ∉ incoming.map (fun x => x.id) → e ∈ mergeEntries base incoming) := by
  refine ⟨?_, ?_, ?_, ?_, ?_⟩
  · intro base incoming
    unfold mergeEntries
    refine List.Pairwise.imp ?_ (List.sorted_mergeSort ?_ ?_
      ((base ++ incoming).foldl mapSet []))
    · intro a b h
      exact of_decide_eq_true h
    · intro a b c h1 h2
      rw [decide_eq_true_eq] at h1 h2 ⊢
      exact le_trans h1 h2
    · intro a b
      rw [Bool.or_eq_true, decide_eq_true_eq, decide_eq_true_eq]
      exact le_total _ _
  · intro base incoming
    rw [List.Perm.nodup_iff ((mergeEntries_perm_fold base incoming).map
      (fun x => x.id))]
    exact fold_ids_nodup _ [] (by simp)
  · intro base incoming k
    rw [((mergeEntries_perm_fold base incoming).map (fun x => x.id)).mem_iff,
      fold_ids_mem]
    simp
  · intro base incoming e hnd he
    obtain ⟨i1, i2, rfl⟩ := List.append_of_mem he
    have h2 : ∀ x ∈ i2, x.id ≠ e.id := by
      rw [List.map_append, List.map_cons] at hnd
      have hcons := (List.nodup_append.mp hnd).2.1
      intro x hx hc
      exact (List.nodup_cons.mp hcons).1 (hc ▸ List.mem_map_of_mem _ hx)
    rw [(mergeEntries_perm_fold base (i1 ++ e :: i2)).mem_iff,
      show base ++ (i1 ++ e :: i2) = (base ++ i1) ++ e :: i2 from
        (List.append_assoc base i1 (e :: i2)).symm]
    exact mem_fold_of_last _ _ _ e h2
  · intro base incoming e hnd he hnotin
    obtain ⟨b1, b2, rfl⟩ := List.append_of_mem he
    have h2 : ∀ x ∈ b2 ++ incoming, x.id ≠ e.id := by
      intro x hx hc
      rw [List.mem_append] at hx
      rcases hx with hx | hx
      · rw [List.map_append, List.map_cons] at hnd
        have hcons := (List.nodup_append.mp hnd).2.1
        exact (List.nodup_cons.mp hcons).1 (hc ▸ List.mem_map_of_mem _ hx)
      · exact hnotin (hc ▸ List.mem_map_of_mem _ hx)
    rw [(mergeEntries_perm_fold _ _).mem_iff,
      show (b1 ++ e :: b2) ++ incoming = b1 ++ e :: (b2 ++ incoming) by simp]
    exact mem_fold_of_last _ _ _ e h2

/-- C6 witness: on a shared id the incoming version survives the merge, and a
base record with an uncontested id survives as well. -/
theorem c6_witness :
    (⟨"s", 5, some 15, "new"⟩ : Entry) ∈
      mergeEntries [⟨"s", 0, some 10, "old"⟩, ⟨"b", 20, some 30, ""⟩]
        [⟨"s", 5, some 15, "new"⟩] ∧
    (⟨"b", 20, some 30, ""⟩ : Entry) ∈
      mergeEntries [⟨"s", 0, some 10, "old"⟩, ⟨"b", 20, some 30, ""⟩]
        [⟨"s", 5, some 15, "new"⟩] := by
  constructor
  · exact c6_merge_spec.2.2.2.1 _ _ _ (by decide) (by simp)
  · exact c6_merge_spec.2.2.2.2 _ _ _ (by decide) (by simp) (by decide)

-- ── Day-walk additivity machinery (C8) ──────────────────────────────────────

lemma range_sum_Icc (g : ℤ → ℤ) (A : ℤ) :
    ∀ n : ℕ, (((List.range n).map (fun (i : ℕ) => A + (i : ℤ))).map g).sum =
      ∑ k ∈ Finset.Icc A (A + n - 1), g k := by
  intro n
  induction n with
  | zero =>
    rw [Finset.Icc_eq_empty (by push_cast; omega)]
    simp
  | succ n ih =>
    rw [List.range_succ, List.map_append, List.map_append, List.sum_append, ih]
    have hins : Finset.Icc A (A + ((n + 1 : ℕ) : ℤ) - 1) =
        insert (A + (n : ℤ)) (Finset.Icc A (A + (n : ℕ) - 1)) := by
      ext x
      rw [Finset.mem_insert, Finset.mem_Icc, Finset.mem_Icc]
      push_cast
      omega
    rw [hins, Finset.sum_insert (by rw [Finset.mem_Icc]; omega)]
    simp
    ring

lemma dayIndices_sum_eq_Icc (g : ℤ → ℤ) (s e : ℤ) (h : localDay s ≤ localDay e) :
    ((dayIndices s e).map g).sum =
      ∑ k ∈ Finset.Icc (localDay s) (localDay e), g k := by
  rw [dayIndices, range_sum_Icc,
    show localDay s + ((localDay e - localDay s + 1).toNat : ℤ) - 1 = localDay e
      from by omega]

lemma Icc_sum_split (g : ℤ → ℤ) (A K B : ℤ) (h1 : A ≤ K + 1) (h2 : K ≤ B) :
    ∑ k ∈ Finset.Icc A B, g k =
      ∑ k ∈ Finset.Icc A K, g k + ∑ k ∈ Finset.Icc (K + 1) B, g k := by
  have hdisj : Disjoint (Finset.Icc A K) (Finset.Icc (K + 1) B) := by
    rw [Finset.disjoint_left]
    intro x hx hx'
    rw [Finset.mem_Icc] at hx hx'
    omega
  rw [← Finset.sum_union hdisj]
  apply Finset.sum_congr _ (fun _ _ => rfl)
  ext x
  rw [Finset.mem_union, Finset.mem_Icc, Finset.mem_Icc, Finset.mem_Icc]
  omega

/-- Splitting a shift at an interior point splits the walked per-day sum,
provided the per-day value splits pointwise and each sub-shift contributes
nothing on days strictly beyond its own range. -/
lemma walkSum_split (f : ℤ → ℤ → ℤ → ℤ) (a t b : ℤ) (h1 : a ≤ t) (h2 : t ≤ b)
    (hsplit : ∀ k, f a b k = f a t k + f t b k)
    (hzl : ∀ k, localDay t < k → f a t k = 0)
    (hzr : ∀ k, k < localDay t → f t b k = 0) :
    ((dayIndices a b).map (f a b)).sum =
      ((dayIndices a t).map (f a t)).sum +
        ((dayIndices t b).map (f t b)).sum := by
  have hAK : localDay a ≤ localDay t := by unfold localDay msPerDay; omega
  have hKB : localDay t ≤ localDay b := by unfold localDay msPerDay; omega
  rw [dayIndices_sum_eq_Icc _ a b (le_trans hAK hKB),
    dayIndices_sum_eq_Icc _ a t hAK, dayIndices_sum_eq_Icc _ t b hKB]
  rw [Finset.sum_congr rfl (fun k _ => hsplit k), Finset.sum_add_distrib]
  have hz1 : ∑ k ∈ Finset.Icc (localDay t + 1) (localDay b), f a t k = 0 :=
    Finset.sum_eq_zero (fun k hk => hzl k (by rw [Finset.mem_Icc] at hk; omega))
  have hz2 : ∑ k ∈ Finset.Icc (localDay a) (localDay t - 1), f t b k = 0 :=
    Finset.sum_eq_zero (fun k hk => hzr k (by rw [Finset.mem_Icc] at hk; omega))
  have e1 : ∑ k ∈ Finset.Icc (localDay a) (localDay b), f a t k =
      ∑ k ∈ Finset.Icc (localDay a) (localDay t), f a t k := by
    rw [Icc_sum_split _ _ (localDay t) _ (by omega) hKB, hz1, add_zero]
  have e2 : ∑ k ∈ Finset.Icc (localDay a) (localDay b), f t b k =
      ∑ k ∈ Finset.Icc (localDay t) (localDay b), f t b k := by
    rw [Icc_sum_split _ _ (localDay t - 1) _ (by omega) (by omega),
      show localDay t - 1 + 1 = localDay t from by ring, hz2, zero_add]
  rw [e1, e2]

lemma clip_split (a t b S E : ℤ) (h1 : a ≤ t) (h2 : t ≤ b) :
    clip a b S E = clip a t S E + clip t b S E := by
  unfold clip
  omega

lemma clip_eq_zero_left (s e S E : ℤ) (h : e ≤ S) : clip s e S E = 0 := by
  unfold clip
  omega

lemma clip_eq_zero_right (s e S E : ℤ) (h : E ≤ s) : clip s e S E = 0 := by
  unfold clip
  omega

lemma dayNightMs_split (meta : MetaData) (a t b k : ℤ) (h1 : a ≤ t) (h2 : t ≤ b) :
    dayNightMs meta a b k = dayNightMs meta a t k + dayNightMs meta t b k := by
  unfold dayNightMs
  split_ifs
  · rw [clip_split a t b (k * msPerDay + nightStartMs meta) ((k + 1) * msPerDay) h1 h2,
      clip_split a t b (k * msPerDay) (k * msPerDay + nightEndMs meta) h1 h2]
    ring
  · exact clip_split a t b _ _ h1 h2

lemma dayNightMs_zero_left (meta : MetaData) (hs : 0 ≤ nightStartMs meta)
    (a t k : ℤ) (hk : localDay t < k) :
    dayNightMs meta a t k = 0 := by
  unfold localDay msPerDay at hk
  unfold dayNightMs
  split_ifs
  · rw [clip_eq_zero_left a t _ _ (by unfold msPerDay; omega),
      clip_eq_zero_left a t _ _ (by unfold msPerDay; omega)]
    rfl
  · exact clip_eq_zero_left a t _ _ (by unfold msPerDay; omega)

lemma dayNightMs_zero_right (meta : MetaData) (he : nightEndMs meta ≤ msPerDay)
    (t b k : ℤ) (hk : k < localDay t) :
    dayNightMs meta t b k = 0 := by
  unfold localDay msPerDay at hk
  unfold msPerDay at he
  unfold dayNightMs
  split_ifs
  · rw [clip_eq_zero_right t b _ _ (by unfold msPerDay; omega),
      clip_eq_zero_right t b _ _ (by unfold msPerDay; omega)]
    rfl
  · exact clip_eq_zero_right t b _ _ (by unfold msPerDay; omega)

lemma daySundayMs_split (a t b k : ℤ) (h1 : a ≤ t) (h2 : t ≤ b) :
    daySundayMs a b k = daySundayMs a t k + daySundayMs t b k := by
  unfold daySundayMs
  split_ifs
  · exact clip_split a t b _ _ h1 h2
  · ring

lemma daySundayMs_zero_left (a t k : ℤ) (hk : localDay t < k) :
    daySundayMs a t k = 0 := by
  unfold localDay msPerDay at hk
  unfold daySundayMs
  split_ifs
  · exact clip_eq_zero_left a t _ _ (by unfold msPerDay; omega)
  · rfl

lemma daySundayMs_zero_right (t b k : ℤ) (hk : k < localDay t) :
    daySundayMs t b k = 0 := by
  unfold localDay msPerDay at hk
  unfold daySundayMs
  split_ifs
  · exact clip_eq_zero_right t b _ _ (by unfold msPerDay; omega)
  · rfl

/-- C8: for a genuine `HH:MM` night window (start offset nonnegative, end
offset within the day) and any closed interval `[a, b]` split at `a ≤ t ≤ b`,
both `calculateNightDiffHours` and `calculateSundayHours` are additive over
the two adjacent sub-intervals, for the same configuration. -/
theorem c8_split_additivity (meta : MetaData) (a t b : ℤ)
    (i1 i2 i3 n1 n2 n3 : String)
    (hs : 0 ≤ nightStartMs meta) (he : nightEndMs meta ≤ msPerDay)
    (h1 : a ≤ t) (h2 : t ≤ b) :
    calculateNightDiffHours ⟨i1, a, some b, n1⟩ meta =
      calculateNightDiffHours ⟨i2, a, some t, n2⟩ meta +
        calculateNightDiffHours ⟨i3, t, some b, n3⟩ meta ∧
    calculateSundayHours ⟨i1, a, some b, n1⟩ =
      calculateSundayHours ⟨i2, a, some t, n2⟩ +
        calculateSundayHours ⟨i3, t, some b, n3⟩ := by
  constructor
  · simp only [calculateNightDiffHours]
    rw [walkSum_split (dayNightMs meta) a t b h1 h2
      (fun k => dayNightMs_split meta a t b k h1 h2)
      (fun k hk => dayNightMs_zero_left meta hs a t k hk)
      (fun k hk => dayNightMs_zero_right meta he t b k hk)]
    push_cast
    ring
  · simp only [calculateSundayHours]
    rw [walkSum_split daySundayMs a t b h1 h2
      (fun k => daySundayMs_split a t b k h1 h2)
      (fun k hk => daySundayMs_zero_left a t k hk)
      (fun k hk => daySundayMs_zero_right t b k hk)]
    push_cast
    ring

/-- C8 witness: additivity at the concrete split 17:00 / 18:00 / 19:00 under
the default configuration (night hours 1 = 0 + 1). -/
theorem c8_witness :
    calculateNightDiffHours ⟨"p", 61200000, some 68400000, ""⟩
        getDefaultMetaData =
      calculateNightDiffHours ⟨"q", 61200000, some 64800000, ""⟩
          getDefaultMetaData +
        calculateNightDiffHours ⟨"r", 64800000, some 68400000, ""⟩
          getDefaultMetaData ∧
    calculateSundayHours ⟨"p", 61200000, some 68400000, ""⟩ =
      calculateSundayHours ⟨"q", 61200000, some 64800000, ""⟩ +
        calculateSundayHours ⟨"r", 64800000, some 68400000, ""⟩ :=
  c8_split_additivity getDefaultMetaData 61200000 64800000 68400000
    "p" "q" "r" "" "" "" (by decide) (by decide) (by decide) (by decide)

end CarrierHelper
